import Mathlib

/-!
Verification of the AlphaEarth core: the quantization codec
(`quantize_numpy` / `dequantize_numpy` and their Earth Engine twins
`quantize_ee` / `dequantize_ee` from `src/utils.py`) and the raster merge
procedures (`merge_tif_files` / `merge_tif_directory` from `src/utils.py`).

The codec is embedded as idealized real arithmetic: numpy float operations
become operations on `ℝ`, the `astype(np.uint8)` cast becomes C-style
truncation toward zero followed by reduction mod 256, and Earth Engine's
`.uint8()` cast becomes saturating truncation to [0, 255].

The merge procedures are embedded as computable functions over an explicit
file-system state, with the external rasterio merge / write primitives
abstracted by success oracles, and with a trace of which input handles were
opened and which were closed.
-/

namespace AlphaEarth

/-! ## Quantization codec (idealized real-number embedding of src/utils.py) -/

/-- C-style float-to-integer conversion: truncation toward zero. -/
noncomputable def truncR (v : ℝ) : ℤ :=
  if 0 ≤ v then ⌊v⌋ else ⌈v⌉

/-- numpy `astype(np.uint8)`: truncate toward zero, then wrap modulo 256. -/
noncomputable def npUint8 (v : ℝ) : ℤ :=
  truncR v % 256

/-- Earth Engine `.uint8()`: truncate toward zero, then saturate to [0, 255]. -/
noncomputable def eeUint8 (v : ℝ) : ℤ :=
  min 255 (max 0 (truncR v))

/-- Model of `np.clip(v, lo, hi)`. -/
def npClip (v lo hi : ℝ) : ℝ :=
  min hi (max lo v)

/-- Earth Engine `.clamp(lo, hi)` applied to a value `v`. -/
def eeClamp (v lo hi : ℝ) : ℝ :=
  min hi (max lo v)

/-- Model of `quantize_numpy` from src/utils.py:
`image = np.abs(image) ** (1 / 2.0) * np.sign(image)`;
`image = (np.clip(image * 127.5, -127, 127) + 128).astype(np.uint8)`. -/
noncomputable def quantize_numpy (x : ℝ) : ℤ :=
  npUint8 (npClip (Real.sqrt |x| * Real.sign x * 127.5) (-127) 127 + 128)

/-- Model of `quantize_ee` from src/utils.py:
`image = image.abs().pow(1 / 2.0).multiply(image.signum())`;
`image = image.multiply(127.5).clamp(-127, 127).add(128).uint8()`. -/
noncomputable def quantize_ee (x : ℝ) : ℤ :=
  eeUint8 (eeClamp (Real.sqrt |x| * Real.sign x * 127.5) (-127) 127 + 128)

/-- Model of `dequantize_numpy` from src/utils.py:
`image = (image.astype(np.float32) - 128) / 127.5`;
`image = (np.abs(image) ** 2.0) * np.sign(image)`. -/
noncomputable def dequantize_numpy (b : ℤ) : ℝ :=
  |((b : ℝ) - 128) / 127.5| ^ 2 * Real.sign (((b : ℝ) - 128) / 127.5)

/-- Model of `dequantize_ee` from src/utils.py:
`image = image.float().subtract(128).divide(127.5)`;
`image = image.abs().pow(2.0).multiply(image.signum())`. -/
noncomputable def dequantize_ee (b : ℤ) : ℝ :=
  |((b : ℝ) - 128) / 127.5| ^ 2 * Real.sign (((b : ℝ) - 128) / 127.5)

/-! ### Basic codec lemmas -/

lemma npClip_le (v : ℝ) : npClip v (-127) 127 ≤ 127 :=
  min_le_left _ _

lemma neg_le_npClip (v : ℝ) : -127 ≤ npClip v (-127) 127 :=
  le_min (by norm_num) (le_max_left _ _)

/-- On the clamped range, the numpy uint8 cast is just the floor shifted by 128. -/
lemma quantize_numpy_eq_floor (x : ℝ) :
    quantize_numpy x =
      ⌊npClip (Real.sqrt |x| * Real.sign x * 127.5) (-127) 127⌋ + 128 := by
  unfold quantize_numpy npUint8 truncR
  set c := npClip (Real.sqrt |x| * Real.sign x * 127.5) (-127) 127 with hc
  have h1 : -127 ≤ c := neg_le_npClip _
  have h2 : c ≤ 127 := npClip_le _
  have h0 : (0 : ℝ) ≤ c + 128 := by linarith
  rw [if_pos h0]
  have hfl : ⌊c + 128⌋ = ⌊c⌋ + 128 := by
    have : c + 128 = c + ((128 : ℤ) : ℝ) := by norm_num
    rw [this, Int.floor_add_int]
  rw [hfl]
  have hlo : (-127 : ℤ) ≤ ⌊c⌋ := by
    have : ((-127 : ℤ) : ℝ) ≤ c := by exact_mod_cast h1
    exact Int.le_floor.mpr this
  have hhi : ⌊c⌋ ≤ 127 := by
    have : ⌊c⌋ ≤ ⌊(127 : ℝ)⌋ := Int.floor_le_floor h2
    simpa using this
  have hnn : (0 : ℤ) ≤ ⌊c⌋ + 128 := by omega
  have hlt : ⌊c⌋ + 128 < 256 := by omega
  exact Int.emod_eq_of_lt hnn hlt

/-- C6: for every real input `x` (including values outside [-1, 1], which are
clamped rather than rejected), `quantize_numpy x` is an unsigned 8-bit integer
in the range [1, 255]; the embedding is total, so no error is raised. -/
theorem quantize_numpy_range (x : ℝ) :
    1 ≤ quantize_numpy x ∧ quantize_numpy x ≤ 255 := by
  rw [quantize_numpy_eq_floor]
  set c := npClip (Real.sqrt |x| * Real.sign x * 127.5) (-127) 127 with hc
  have h1 : -127 ≤ c := neg_le_npClip _
  have h2 : c ≤ 127 := npClip_le _
  have hlo : (-127 : ℤ) ≤ ⌊c⌋ := by
    have : ((-127 : ℤ) : ℝ) ≤ c := by exact_mod_cast h1
    exact Int.le_floor.mpr this
  have hhi : ⌊c⌋ ≤ 127 := by
    have : ⌊c⌋ ≤ ⌊(127 : ℝ)⌋ := Int.floor_le_floor h2
    simpa using this
  omega

lemma eeClamp_eq_npClip : eeClamp = npClip := rfl

lemma eeUint8_eq_npUint8 (v : ℝ) (h0 : 0 ≤ v) (h255 : v ≤ 255) :
    eeUint8 v = npUint8 v := by
  unfold eeUint8 npUint8 truncR
  rw [if_pos h0]
  have hfl0 : (0 : ℤ) ≤ ⌊v⌋ := Int.floor_nonneg.mpr h0
  have hfl255 : ⌊v⌋ ≤ 255 := by
    have : ⌊v⌋ ≤ ⌊(255 : ℝ)⌋ := Int.floor_le_floor h255
    simpa using this
  rw [Int.emod_eq_of_lt hfl0 (by omega), max_eq_right hfl0, min_eq_right hfl255]

/-- C2: the in-memory (numpy) and remote-expression (Earth Engine) forms of the
codec compute mathematically identical mappings: for every input value,
`quantize_numpy` and `quantize_ee` produce the same byte, and
`dequantize_numpy` and `dequantize_ee` produce the same float. -/
theorem codec_backends_agree (x : ℝ) (b : ℤ) :
    quantize_ee x = quantize_numpy x ∧ dequantize_ee b = dequantize_numpy b := by
  refine ⟨?_, rfl⟩
  unfold quantize_ee quantize_numpy
  rw [eeClamp_eq_npClip]
  have h1 : -127 ≤ npClip (Real.sqrt |x| * Real.sign x * 127.5) (-127) 127 :=
    neg_le_npClip _
  have h2 : npClip (Real.sqrt |x| * Real.sign x * 127.5) (-127) 127 ≤ 127 :=
    npClip_le _
  exact eeUint8_eq_npUint8 _ (by linarith) (by linarith)

/-- Rewriting of the second dequantization step: `|v| ** 2 * sign v = v * |v|`. -/
lemma pow_abs_sign (v : ℝ) : |v| ^ 2 * Real.sign v = v * |v| := by
  rcases lt_trichotomy v 0 with h | h | h
  · rw [Real.sign_of_neg h, abs_of_neg h]; ring
  · simp [h]
  · rw [Real.sign_of_pos h, abs_of_pos h]; ring

/-- The forward power curve undoes the backward one: applied to `y * |y|`,
the signed square root returns `y`. -/
lemma sign_sq_cancel (y : ℝ) :
    Real.sqrt (abs (y * |y|)) * Real.sign (y * |y|) = y := by
  rcases lt_trichotomy y 0 with hy | hy | hy
  · have habs : |y| = -y := abs_of_neg hy
    have hneg : y * |y| < 0 := by nlinarith
    have hx : abs (y * |y|) = y ^ 2 := by
      rw [abs_of_neg hneg, habs]; ring
    rw [Real.sign_of_neg hneg, hx, Real.sqrt_sq_eq_abs, habs]; ring
  · simp [hy]
  · have habs : |y| = y := abs_of_pos hy
    have hpos : 0 < y * |y| := by nlinarith
    have hx : abs (y * |y|) = y ^ 2 := by
      rw [abs_of_pos hpos, habs]; ring
    rw [Real.sign_of_pos hpos, hx, Real.sqrt_sq_eq_abs, habs]; ring

lemma npClip_id (v : ℝ) (h1 : -127 ≤ v) (h2 : v ≤ 127) :
    npClip v (-127) 127 = v := by
  unfold npClip
  rw [max_eq_right h1, min_eq_right h2]

/-- The byte-side roundtrip is exact in the idealized model. -/
lemma quantize_dequantize_eq (b : ℤ) (h1 : 1 ≤ b) (h2 : b ≤ 255) :
    quantize_numpy (dequantize_numpy b) = b := by
  have hy : dequantize_numpy b =
      (((b : ℝ) - 128) / 127.5) * |((b : ℝ) - 128) / 127.5| := by
    unfold dequantize_numpy
    exact pow_abs_sign _
  set y : ℝ := ((b : ℝ) - 128) / 127.5 with hydef
  rw [quantize_numpy_eq_floor, hy, sign_sq_cancel y]
  have hmul : y * 127.5 = (b : ℝ) - 128 := by
    rw [hydef]
    field_simp
  rw [hmul]
  have hcast : (b : ℝ) - 128 = ((b - 128 : ℤ) : ℝ) := by push_cast; ring
  have hb1 : -127 ≤ (b : ℝ) - 128 := by
    have : (1 : ℝ) ≤ (b : ℝ) := by exact_mod_cast h1
    linarith
  have hb2 : (b : ℝ) - 128 ≤ 127 := by
    have : (b : ℝ) ≤ 255 := by exact_mod_cast h2
    linarith
  rw [npClip_id _ hb1 hb2, hcast, Int.floor_intCast]
  omega

/-- C8: for every byte `b` in [1, 255], `quantize_numpy (dequantize_numpy b)`
equals `b` to within a tolerance of 1; in the idealized real-number model the
roundtrip is in fact exact. -/
theorem quantize_dequantize_within_one (b : ℤ) (h1 : 1 ≤ b) (h2 : b ≤ 255) :
    |quantize_numpy (dequantize_numpy b) - b| ≤ 1 := by
  rw [quantize_dequantize_eq b h1 h2]
  simp

/-- Witness for C8 at the concrete byte 200. -/
theorem quantize_dequantize_within_one_witness :
    |quantize_numpy (dequantize_numpy 200) - 200| ≤ 1 :=
  quantize_dequantize_within_one 200 (by norm_num) (by norm_num)

/-- The signed square-root compression curve is monotone non-decreasing. -/
lemma signSqrt_mono (a b : ℝ) (hab : a ≤ b) :
    Real.sqrt |a| * Real.sign a ≤ Real.sqrt |b| * Real.sign b := by
  rcases lt_trichotomy a 0 with ha | ha | ha
  · have hga : Real.sqrt |a| * Real.sign a = -Real.sqrt (-a) := by
      rw [abs_of_neg ha, Real.sign_of_neg ha]; ring
    rcases lt_trichotomy b 0 with hb | hb | hb
    · have hgb : Real.sqrt |b| * Real.sign b = -Real.sqrt (-b) := by
        rw [abs_of_neg hb, Real.sign_of_neg hb]; ring
      rw [hga, hgb]
      have := Real.sqrt_le_sqrt (show -b ≤ -a by linarith)
      linarith
    · rw [hga, hb]
      simp only [abs_zero, Real.sqrt_zero, Real.sign_zero, mul_zero, zero_mul]
      linarith [Real.sqrt_nonneg (-a)]
    · have hgb : Real.sqrt |b| * Real.sign b = Real.sqrt b := by
        rw [abs_of_pos hb, Real.sign_of_pos hb]; ring
      rw [hga, hgb]
      have h1 := Real.sqrt_nonneg (-a)
      have h2 := Real.sqrt_nonneg b
      linarith
  · subst ha
    simp only [abs_zero, Real.sqrt_zero, Real.sign_zero, mul_zero, zero_mul]
    rcases eq_or_lt_of_le hab with hb0 | hb0
    · rw [← hb0]
      simp
    · rw [Real.sign_of_pos hb0]
      positivity
  · have hga : Real.sqrt |a| * Real.sign a = Real.sqrt a := by
      rw [abs_of_pos ha, Real.sign_of_pos ha]; ring
    have hb : 0 < b := lt_of_lt_of_le ha hab
    have hgb : Real.sqrt |b| * Real.sign b = Real.sqrt b := by
      rw [abs_of_pos hb, Real.sign_of_pos hb]; ring
    rw [hga, hgb]
    exact Real.sqrt_le_sqrt hab

/-- C7: `quantize_numpy` is monotonic non-decreasing: for all `x` and `y` in
[-1, 1] with `x ≤ y`, `quantize_numpy x ≤ quantize_numpy y`. -/
theorem quantize_numpy_monotone (x y : ℝ) (hx : -1 ≤ x) (hy : y ≤ 1)
    (hxy : x ≤ y) : quantize_numpy x ≤ quantize_numpy y := by
  rw [quantize_numpy_eq_floor, quantize_numpy_eq_floor]
  have hg := signSqrt_mono x y hxy
  have hmul : Real.sqrt |x| * Real.sign x * 127.5 ≤
      Real.sqrt |y| * Real.sign y * 127.5 :=
    mul_le_mul_of_nonneg_right hg (by norm_num)
  have hclip : npClip (Real.sqrt |x| * Real.sign x * 127.5) (-127) 127 ≤
      npClip (Real.sqrt |y| * Real.sign y * 127.5) (-127) 127 := by
    unfold npClip
    exact min_le_min le_rfl (max_le_max le_rfl hmul)
  have := Int.floor_le_floor hclip
  omega

/-- Witness for C7 at the concrete pair x = 0, y = 1. -/
theorem quantize_numpy_monotone_witness : quantize_numpy 0 ≤ quantize_numpy 1 :=
  quantize_numpy_monotone 0 1 (by norm_num) (le_refl 1) (by norm_num)

lemma abs_sign_le_one (x : ℝ) : abs (Real.sign x) ≤ 1 := by
  rcases lt_trichotomy x 0 with h | h | h
  · rw [Real.sign_of_neg h]; norm_num
  · rw [h, Real.sign_zero]; norm_num
  · rw [Real.sign_of_pos h]; norm_num

/-- The forward power curve squares back to the input:
`g x * |g x| = x` for `g x = sqrt |x| * sign x`. -/
lemma sign_sqrt_sq (x : ℝ) :
    Real.sqrt |x| * Real.sign x * abs (Real.sqrt |x| * Real.sign x) = x := by
  rcases lt_trichotomy x 0 with h | h | h
  · rw [abs_of_neg h, Real.sign_of_neg h]
    have h0 : (0 : ℝ) ≤ -x := by linarith
    have hs : (0 : ℝ) ≤ Real.sqrt (-x) := Real.sqrt_nonneg _
    have habs : abs (Real.sqrt (-x) * (-1)) = Real.sqrt (-x) := by
      rw [abs_mul]
      simp [abs_of_nonneg hs]
    rw [habs]
    have hsq := Real.mul_self_sqrt h0
    nlinarith
  · simp [h]
  · rw [abs_of_pos h, Real.sign_of_pos h, mul_one,
      abs_of_nonneg (Real.sqrt_nonneg x)]
    exact Real.mul_self_sqrt h.le

lemma mul_abs_sub_le_aux (u v : ℝ) (h : u ≤ v) :
    v * |v| - u * |u| ≤ (v - u) * (|u| + |v|) := by
  rcases le_or_lt 0 u with hu | hu <;> rcases le_or_lt 0 v with hv | hv
  · rw [abs_of_nonneg hu, abs_of_nonneg hv]; nlinarith
  · linarith
  · rw [abs_of_neg hu, abs_of_nonneg hv]
    nlinarith [mul_nonneg hv (neg_nonneg.mpr hu.le)]
  · rw [abs_of_neg hu, abs_of_neg hv]; nlinarith

lemma mul_abs_nondecreasing (u v : ℝ) (h : u ≤ v) : u * |u| ≤ v * |v| := by
  rcases le_or_lt 0 u with hu | hu <;> rcases le_or_lt 0 v with hv | hv
  · rw [abs_of_nonneg hu, abs_of_nonneg hv]; nlinarith
  · linarith
  · rw [abs_of_neg hu, abs_of_nonneg hv]; nlinarith
  · rw [abs_of_neg hu, abs_of_neg hv]
    nlinarith [mul_nonneg (sub_nonneg.mpr h) (show (0:ℝ) ≤ -(u + v) by linarith)]

/-- Lipschitz-style bound for the signed square `v ↦ v * |v|`. -/
lemma abs_mul_abs_sub_le (a b : ℝ) :
    abs (a * |a| - b * |b|) ≤ |a - b| * (|a| + |b|) := by
  rcases le_total a b with h | h
  · have h1 := mul_abs_sub_le_aux a b h
    have h2 := mul_abs_nondecreasing a b h
    have habs : |a - b| = b - a := by
      rw [abs_sub_comm, abs_of_nonneg (sub_nonneg.mpr h)]
    rw [habs, abs_of_nonpos (by linarith : a * |a| - b * |b| ≤ 0)]
    linarith
  · have h1 := mul_abs_sub_le_aux b a h
    have h2 := mul_abs_nondecreasing b a h
    have habs : |a - b| = a - b := abs_of_nonneg (sub_nonneg.mpr h)
    rw [habs, abs_of_nonneg (by linarith : (0:ℝ) ≤ a * |a| - b * |b|)]
    linarith

/-- Core numerator bound for the roundtrip error: flooring the clipped value
moves the signed square by at most 255. -/
lemma roundtrip_numerator (t : ℝ) (ht : |t| ≤ 127.5) :
    abs (((⌊npClip t (-127) 127⌋ : ℤ) : ℝ) *
        abs ((⌊npClip t (-127) 127⌋ : ℤ) : ℝ) - t * |t|) ≤ 255 := by
  have ht1 : -127.5 ≤ t := by linarith [neg_abs_le t]
  have ht2 : t ≤ 127.5 := by linarith [le_abs_self t]
  rcases le_or_lt t (-127) with hlo | hlo
  · have hc : npClip t (-127) 127 = -127 := by
      unfold npClip
      rw [max_eq_left hlo, min_eq_right (by norm_num : (-127:ℝ) ≤ 127)]
    rw [hc]
    have hk : ⌊(-127 : ℝ)⌋ = -127 := by
      rw [show ((-127 : ℝ)) = ((-127 : ℤ) : ℝ) by norm_num, Int.floor_intCast]
    rw [hk]
    push_cast
    have htneg : t < 0 := by linarith
    rw [show abs ((-127 : ℝ)) = 127 by norm_num, abs_of_neg htneg]
    have hsq1 : t ^ 2 ≤ 127.5 ^ 2 := by nlinarith
    have hsq2 : 127 ^ 2 ≤ t ^ 2 := by nlinarith
    rw [abs_of_nonneg (by nlinarith : (0:ℝ) ≤ -127 * 127 - t * -t)]
    nlinarith
  · rcases le_or_lt 127 t with hhi | hhi
    · have hc : npClip t (-127) 127 = 127 := by
        unfold npClip
        rw [min_eq_left (hhi.trans (le_max_right (-127) t))]
      rw [hc]
      have hk : ⌊(127 : ℝ)⌋ = 127 := by
        rw [show ((127 : ℝ)) = ((127 : ℤ) : ℝ) by norm_num, Int.floor_intCast]
      rw [hk]
      push_cast
      have htpos : 0 < t := by linarith
      rw [show abs ((127 : ℝ)) = 127 by norm_num, abs_of_pos htpos]
      have hsq1 : t ^ 2 ≤ 127.5 ^ 2 := by nlinarith
      have hsq2 : 127 ^ 2 ≤ t ^ 2 := by nlinarith
      rw [abs_of_nonpos (by nlinarith : 127 * 127 - t * t ≤ 0)]
      nlinarith
    · have hc : npClip t (-127) 127 = t := npClip_id t (by linarith) (by linarith)
      rw [hc]
      have hfl_le : ((⌊t⌋ : ℤ) : ℝ) ≤ t := Int.floor_le t
      have hfl_gt : t - 1 < ((⌊t⌋ : ℤ) : ℝ) := Int.sub_one_lt_floor t
      have hk_le : ((⌊t⌋ : ℤ) : ℝ) ≤ 127 := by linarith
      have hk_ge : (-127 : ℝ) ≤ ((⌊t⌋ : ℤ) : ℝ) := by
        have hcast : ((-127 : ℤ) : ℝ) ≤ t := by push_cast; linarith
        exact_mod_cast Int.le_floor.mpr hcast
      have hkabs : abs ((⌊t⌋ : ℤ) : ℝ) ≤ 127 := abs_le.mpr ⟨hk_ge, hk_le⟩
      have htabs127 : |t| ≤ 127 := abs_le.mpr ⟨by linarith, by linarith⟩
      have hsub : abs (((⌊t⌋ : ℤ) : ℝ) - t) ≤ 1 :=
        abs_le.mpr ⟨by linarith, by linarith⟩
      have hmain := abs_mul_abs_sub_le (((⌊t⌋ : ℤ) : ℝ)) t
      have hprod : abs (((⌊t⌋ : ℤ) : ℝ) - t) *
          (abs ((⌊t⌋ : ℤ) : ℝ) + |t|) ≤ 1 * 254 :=
        mul_le_mul hsub (by linarith) (by positivity) (by norm_num)
      linarith

/-- The full roundtrip expressed through the floor of the clipped curve. -/
lemma roundtrip_formula (x : ℝ) :
    dequantize_numpy (quantize_numpy x) =
      (((⌊npClip (Real.sqrt |x| * Real.sign x * 127.5) (-127) 127⌋ : ℤ) : ℝ) *
        abs ((⌊npClip (Real.sqrt |x| * Real.sign x * 127.5) (-127) 127⌋ : ℤ) : ℝ))
        / 127.5 ^ 2 := by
  rw [quantize_numpy_eq_floor]
  unfold dequantize_numpy
  have harg :
      ((((⌊npClip (Real.sqrt |x| * Real.sign x * 127.5) (-127) 127⌋ + 128 : ℤ)) : ℝ)
          - 128) / 127.5 =
      ((⌊npClip (Real.sqrt |x| * Real.sign x * 127.5) (-127) 127⌋ : ℤ) : ℝ) / 127.5 := by
    push_cast; ring
  rw [harg, pow_abs_sign, abs_div,
    abs_of_pos (show (0:ℝ) < 127.5 by norm_num)]
  ring

/-- C1: for every `x` in [-1, 1], `dequantize_numpy (quantize_numpy x)` differs
from `x` by at most the maximum per-step quantization error of the 256-level
power-curve mapping; with a step of `1 / 127.5` in the compressed domain and a
curve slope of at most 2, that bound is `2 / 127.5 = 4 / 255`. -/
theorem dequantize_quantize_close (x : ℝ) (h1 : -1 ≤ x) (h2 : x ≤ 1) :
    abs (dequantize_numpy (quantize_numpy x) - x) ≤ 4 / 255 := by
  have hxabs : |x| ≤ 1 := abs_le.mpr ⟨h1, h2⟩
  have hgabs : abs (Real.sqrt |x| * Real.sign x) ≤ 1 := by
    rw [abs_mul, abs_of_nonneg (Real.sqrt_nonneg _)]
    have hs : Real.sqrt |x| ≤ 1 := Real.sqrt_le_one.mpr hxabs
    have hsgn := abs_sign_le_one x
    nlinarith [Real.sqrt_nonneg |x|, abs_nonneg (Real.sign x)]
  have htabs : abs (Real.sqrt |x| * Real.sign x * 127.5) ≤ 127.5 := by
    rw [abs_mul, show abs ((127.5:ℝ)) = 127.5 by norm_num]
    nlinarith [abs_nonneg (Real.sqrt |x| * Real.sign x)]
  have hnum := roundtrip_numerator _ htabs
  have hx2 : x * 127.5 ^ 2 =
      Real.sqrt |x| * Real.sign x * 127.5 *
        abs (Real.sqrt |x| * Real.sign x * 127.5) := by
    rw [abs_mul (Real.sqrt |x| * Real.sign x) 127.5,
      show abs ((127.5:ℝ)) = 127.5 by norm_num]
    have := sign_sqrt_sq x
    nlinarith
  have hrw : dequantize_numpy (quantize_numpy x) - x =
      (((⌊npClip (Real.sqrt |x| * Real.sign x * 127.5) (-127) 127⌋ : ℤ) : ℝ) *
        abs ((⌊npClip (Real.sqrt |x| * Real.sign x * 127.5) (-127) 127⌋ : ℤ) : ℝ)
        - Real.sqrt |x| * Real.sign x * 127.5 *
          abs (Real.sqrt |x| * Real.sign x * 127.5)) / 127.5 ^ 2 := by
    rw [roundtrip_formula x]
    field_simp
    linarith
  rw [hrw, abs_div, show abs ((127.5:ℝ) ^ 2) = 127.5 ^ 2 by norm_num]
  have hfinal :
      abs (((⌊npClip (Real.sqrt |x| * Real.sign x * 127.5) (-127) 127⌋ : ℤ) : ℝ) *
        abs ((⌊npClip (Real.sqrt |x| * Real.sign x * 127.5) (-127) 127⌋ : ℤ) : ℝ)
        - Real.sqrt |x| * Real.sign x * 127.5 *
          abs (Real.sqrt |x| * Real.sign x * 127.5)) / 127.5 ^ 2 ≤
      255 / 127.5 ^ 2 :=
    (div_le_div_iff_of_pos_right (by norm_num : (0:ℝ) < 127.5 ^ 2)).mpr hnum
  have hval : (255 : ℝ) / 127.5 ^ 2 = 4 / 255 := by norm_num
  linarith

/-- Witness for C1 at the concrete input x = 0. -/
theorem dequantize_quantize_close_witness :
    abs (dequantize_numpy (quantize_numpy 0) - 0) ≤ 4 / 255 :=
  dequantize_quantize_close 0 (by norm_num) (by norm_num)

/-! ## File-system model for the raster-merge procedures

Paths are strings; a file system is the list of regular files and the list
of directories currently present.  The external rasterio primitives
(`rasterio.merge.merge` and writing through `rasterio.open(..., "w")`) are
abstracted by two success oracles `mergeOk` and `writeOk`; opening an input
file for reading is recorded in the `opened` trace and closing it in the
`closed` trace.  Opening the output path for writing creates (or truncates)
the output file even when the subsequent write raises, matching rasterio. -/

structure FS where
  files : List String
  dirs : List String
deriving DecidableEq, Repr

def FS.isFile (fs : FS) (p : String) : Bool :=
  fs.files.contains p

def FS.isDir (fs : FS) (p : String) : Bool :=
  fs.dirs.contains p

def FS.pathExists (fs : FS) (p : String) : Bool :=
  fs.isFile p || fs.isDir p

/-- Length of the final path component (the part after the last `/`). -/
def fileNameLen (l : List Char) : Nat :=
  (l.reverse.takeWhile (fun c => c != '/')).length

/-- The final path component, like Python's `Path(p).name`. -/
def fileNameChars (l : List Char) : List Char :=
  l.drop (l.length - fileNameLen l)

/-- Length of the part of a name strictly after the last dot. -/
def afterDotLen (name : List Char) : Nat :=
  (name.reverse.takeWhile (fun c => c != '.')).length

/-- Python `Path(p).suffix`: the extension from the last dot of the final
component, empty when the name has no dot or only a leading dot. -/
def pySuffix (p : String) : String :=
  let name := fileNameChars p.toList
  if afterDotLen name = name.length then ""
  else if name.length - afterDotLen name - 1 = 0 then ""
  else String.mk (name.drop (name.length - afterDotLen name - 1))

/-- Python `Path(p).with_suffix(s)`: replace the suffix of the final
component (or append `s` when there is none). -/
def pyWithSuffix (p : String) (suf : String) : String :=
  let l := p.toList
  let name := fileNameChars l
  let dir := l.take (l.length - fileNameLen l)
  let stem :=
    if afterDotLen name = name.length then name
    else if name.length - afterDotLen name - 1 = 0 then name
    else name.take (name.length - afterDotLen name - 1)
  String.mk (dir ++ stem ++ suf.toList)

/-- Matching of the glob pattern `"*.tif"`: the name ends in
`.tif` and, the pattern not starting with a dot, hidden names are skipped. -/
def fnmatchTif (name : List Char) : Bool :=
  match name with
  | [] => false
  | c :: _ => c != '.' && ['.', 't', 'i', 'f'].isSuffixOf name

/-- Whether `p` lies directly inside directory `d` (non-recursive), i.e.
`p = d ++ "/" ++ name` with a nonempty name containing no `/`. -/
def isDirectChild (d p : String) : Bool :=
  let dl := d.toList
  let pl := p.toList
  (dl ++ ['/']).isPrefixOf pl &&
    (pl.drop (dl.length + 1)).length > 0 &&
    !((pl.drop (dl.length + 1)).contains '/')

/-- Model of `input_dir.glob("*.tif")` over the modelled file system. -/
def globTif (fs : FS) (d : String) : List String :=
  fs.files.filter (fun p => isDirectChild d p && fnmatchTif (fileNameChars p.toList))

/-- Whether `p` lies anywhere under directory `d` (strictly inside). -/
def underDir (d p : String) : Bool :=
  (d.toList ++ ['/']).isPrefixOf p.toList

/-- Model of `shutil.rmtree(d)`: remove the directory `d` and everything under it. -/
def rmtree (fs : FS) (d : String) : FS :=
  { files := fs.files.filter (fun p => !(underDir d p)),
    dirs := fs.dirs.filter (fun p => !(p == d || underDir d p)) }

/-- The validation predicate asserted over every input of `merge_tif_files`:
`file.is_file() and file.suffix == ".tif" and file.exists()`. -/
def validTif (fs : FS) (f : String) : Bool :=
  fs.isFile f && (pySuffix f == ".tif") && fs.pathExists f

/-- Result of running a merge procedure: the raised error message if any, the
resulting file system, and the trace of input handles opened and closed. -/
structure Outcome where
  err : Option String
  fs : FS
  opened : List String
  closed : List String
deriving DecidableEq, Repr

/-- Model of `merge_tif_files` from src/utils.py, step for step:
assert all inputs valid; assert the list non-empty; open every input
(`srcs = [rasterio.open(file) for file in files]`); run the external merge;
write the merged mosaic to `output_path` (the output file is created by
`rasterio.open(output_path, "w", ...)` even if the write then raises);
close the opened inputs; finally unlink the inputs if `delete_after`. -/
def merge_tif_files (mergeOk writeOk : Bool) (fs : FS)
    (files : List String) (output_path : String) (delete_after : Bool) :
    Outcome :=
  if !(files.all (validTif fs)) then
    { err := some ("All files must exist and be .tif files."),
      fs := fs, opened := [], closed := [] }
  else if files.length = 0 then
    { err := some ("No files to merge."), fs := fs, opened := [], closed := [] }
  else if !mergeOk then
    { err := some ("merge raised"), fs := fs, opened := files, closed := [] }
  else
    let fs1 : FS :=
      { fs with
        files := if fs.files.contains output_path then fs.files
                 else fs.files ++ [output_path] }
    if !writeOk then
      { err := some ("write raised"), fs := fs1, opened := files, closed := [] }
    else if delete_after then
      { err := none,
        fs := { fs1 with files := files.foldl (fun acc f => acc.erase f) fs1.files },
        opened := files, closed := files }
    else
      { err := none, fs := fs1, opened := files, closed := files }

/-- Model of `merge_tif_directory` from src/utils.py: assert the input directory
exists; glob `*.tif` inside it; default the output path to
`input_dir.with_suffix(".tif")` when none is given; run `merge_tif_files`;
on success, `shutil.rmtree(input_dir)` if `delete_after`. -/
def merge_tif_directory (mergeOk writeOk : Bool) (fs : FS)
    (input_dir : String) (output_path : Option String) (delete_after : Bool) :
    Outcome :=
  if !(fs.isDir input_dir) then
    { err := some ("Input directory must exist."),
      fs := fs, opened := [], closed := [] }
  else
    let files := globTif fs input_dir
    let out :=
      match output_path with
      | none => pyWithSuffix input_dir (".tif")
      | some p => p
    let r := merge_tif_files mergeOk writeOk fs files out delete_after
    match r.err with
    | some _ => r
    | none => if delete_after then { r with fs := rmtree r.fs input_dir } else r

/-- C3: `merge_tif_files` raises a validation error before any file is
opened for I/O whenever the input list is empty or any listed path fails the
existence / regular-file / `.tif`-extension check, and `merge_tif_directory`
raises a validation error when the input directory does not exist; in these
cases the file system is unchanged (no partial merge output). -/
theorem merge_validation_fail_fast (mOk wOk : Bool) (fs : FS)
    (files : List String) (out : String) (da : Bool) (d : String)
    (oo : Option String) :
    ((files = [] ∨ ∃ f ∈ files, validTif fs f = false) →
      (merge_tif_files mOk wOk fs files out da).err.isSome = true ∧
      (merge_tif_files mOk wOk fs files out da).opened = [] ∧
      (merge_tif_files mOk wOk fs files out da).fs = fs) ∧
    (fs.isDir d = false →
      (merge_tif_directory mOk wOk fs d oo da).err.isSome = true ∧
      (merge_tif_directory mOk wOk fs d oo da).opened = [] ∧
      (merge_tif_directory mOk wOk fs d oo da).fs = fs) := by
  constructor
  · intro h
    rcases h with h | ⟨f, hf, hval⟩
    · subst h
      simp [merge_tif_files]
    · have hall : files.all (validTif fs) = false := by
        rcases hcase : files.all (validTif fs) with _ | _
        · rfl
        · exact absurd (List.all_eq_true.mp hcase f hf) (by simp [hval])
      simp [merge_tif_files, hall]
  · intro h
    simp [merge_tif_directory, h]

/-- Witness for C3: an empty input list, and a missing input directory. -/
theorem merge_validation_fail_fast_witness :
    ((merge_tif_files true true ⟨["a.tif"], []⟩ [] "o.tif" false).err.isSome = true ∧
      (merge_tif_files true true ⟨["a.tif"], []⟩ [] "o.tif" false).opened = [] ∧
      (merge_tif_files true true ⟨["a.tif"], []⟩ [] "o.tif" false).fs = ⟨["a.tif"], []⟩) ∧
    ((merge_tif_directory true true ⟨["a.tif"], []⟩ "missing" none false).err.isSome = true ∧
      (merge_tif_directory true true ⟨["a.tif"], []⟩ "missing" none false).opened = [] ∧
      (merge_tif_directory true true ⟨["a.tif"], []⟩ "missing" none false).fs = ⟨["a.tif"], []⟩) :=
  ⟨(merge_validation_fail_fast true true ⟨["a.tif"], []⟩ [] "o.tif" false
      ("missing") none).1 (Or.inl rfl),
   (merge_validation_fail_fast true true ⟨["a.tif"], []⟩ [] "o.tif" false
      ("missing") none).2 (by decide)⟩

lemma validTif_isFile (fs : FS) (f : String) (h : validTif fs f = true) :
    fs.files.contains f = true := by
  unfold validTif FS.isFile at h
  have h1 := ((Bool.and_eq_true _ _).mp h).1
  exact ((Bool.and_eq_true _ _).mp h1).1

/-- C4: with `delete_after = True`, input files are deleted only after the
merged output has been successfully written: on every erroneous run
(including a write failure) each input file's presence on disk is unchanged,
and a run that reaches the deletion step must have had a successful merge and
write. -/
theorem delete_only_after_write (mOk wOk : Bool) (fs : FS)
    (files : List String) (out : String) :
    ((merge_tif_files mOk wOk fs files out true).err.isSome = true →
      ∀ f ∈ files,
        (merge_tif_files mOk wOk fs files out true).fs.files.contains f
          = fs.files.contains f) ∧
    ((merge_tif_files mOk wOk fs files out true).err = none →
      mOk = true ∧ wOk = true) := by
  rcases hall : files.all (validTif fs) with _ | _
  · constructor
    · intro _ f _
      simp [merge_tif_files, hall]
    · intro hnone
      simp [merge_tif_files, hall] at hnone
  · by_cases hlen : files.length = 0
    · constructor
      · intro _ f _
        simp [merge_tif_files, hall, hlen]
      · intro hnone
        simp [merge_tif_files, hall, hlen] at hnone
    · rcases hm : mOk with _ | _
      · constructor
        · intro _ f _
          simp [merge_tif_files, hall, hlen]
        · intro hnone
          simp [merge_tif_files, hall, hlen] at hnone
      · rcases hw : wOk with _ | _
        · constructor
          · intro _ f hf
            have hvf : validTif fs f = true := List.all_eq_true.mp hall f hf
            have hmem : fs.files.contains f = true := validTif_isFile fs f hvf
            have hmemP : f ∈ fs.files := List.elem_iff.mp hmem
            simp [merge_tif_files, hall, hlen]
            by_cases ho : out ∈ fs.files <;> simp [ho, hmemP]
          · intro hnone
            simp [merge_tif_files, hall, hlen] at hnone
        · constructor
          · intro hsome
            simp [merge_tif_files, hall, hlen] at hsome
          · intro _
            exact ⟨rfl, rfl⟩

/-- Witness for C4: a failed write with one valid input file. -/
theorem delete_only_after_write_witness :
    (merge_tif_files true false ⟨["a.tif"], []⟩ ["a.tif"] "o.tif" true).fs.files.contains ("a.tif")
      = (FS.mk ["a.tif"] []).files.contains ("a.tif") :=
  (delete_only_after_write true false ⟨["a.tif"], []⟩ ["a.tif"] "o.tif").1
    (by decide) "a.tif" (by simp)

/-- C5 counterexample: on a run where the external merge computation raises,
the single opened input handle is never closed, so it is false that every
opened handle is released on every exit path. -/
theorem merge_handles_leak_on_error :
    (merge_tif_files false true ⟨["a.tif"], []⟩ ["a.tif"] "o.tif" false).opened
        = ["a.tif"] ∧
    (merge_tif_files false true ⟨["a.tif"], []⟩ ["a.tif"] "o.tif" false).closed
        = [] ∧
    (merge_tif_files false true ⟨["a.tif"], []⟩ ["a.tif"] "o.tif" false).err.isSome
        = true :=
  ⟨rfl, rfl, rfl⟩

/-- C5 amended: `merge_tif_files` closes every opened input handle on the
successful exit path, but on an erroneous exit (merge computation or output
write raising) no opened input handle is closed, because the close loop runs
only after the write in straight-line code. -/
theorem merge_handles_closed_iff_success (mOk wOk : Bool) (fs : FS)
    (files : List String) (out : String) (da : Bool) :
    ((merge_tif_files mOk wOk fs files out da).err = none →
      (merge_tif_files mOk wOk fs files out da).closed =
        (merge_tif_files mOk wOk fs files out da).opened) ∧
    ((merge_tif_files mOk wOk fs files out da).err.isSome = true →
      (merge_tif_files mOk wOk fs files out da).closed = []) := by
  rcases hall : files.all (validTif fs) with _ | _
  · exact ⟨by intro h; simp [merge_tif_files, hall] at h,
      by intro _; simp [merge_tif_files, hall]⟩
  · by_cases hlen : files.length = 0
    · exact ⟨by intro h; simp [merge_tif_files, hall, hlen] at h,
        by intro _; simp [merge_tif_files, hall, hlen]⟩
    · rcases hm : mOk with _ | _
      · exact ⟨by intro h; simp [merge_tif_files, hall, hlen] at h,
          by intro _; simp [merge_tif_files, hall, hlen]⟩
      · rcases hw : wOk with _ | _
        · exact ⟨by intro h; simp [merge_tif_files, hall, hlen] at h,
            by intro _; simp [merge_tif_files, hall, hlen]⟩
        · rcases hda : da with _ | _
          · exact ⟨by intro _; simp [merge_tif_files, hall, hlen],
              by intro h; simp [merge_tif_files, hall, hlen] at h⟩
          · exact ⟨by intro _; simp [merge_tif_files, hall, hlen],
              by intro h; simp [merge_tif_files, hall, hlen] at h⟩

/-- Witness for C5 (amended) on a successful run. -/
theorem merge_handles_closed_iff_success_witness :
    (merge_tif_files true true ⟨["a.tif"], []⟩ ["a.tif"] "o.tif" false).closed =
      (merge_tif_files true true ⟨["a.tif"], []⟩ ["a.tif"] "o.tif" false).opened :=
  (merge_handles_closed_iff_success true true ⟨["a.tif"], []⟩ ["a.tif"]
      "o.tif" false).1 rfl

lemma afterDotLen_le (name : List Char) : afterDotLen name ≤ name.length := by
  unfold afterDotLen
  calc (name.reverse.takeWhile (fun c => c != '.')).length
      ≤ name.reverse.length :=
        (List.takeWhile_sublist (fun c => c != '.')).length_le
    _ = name.length := List.length_reverse name

lemma take_drop_name (l : List Char) :
    l.take (l.length - fileNameLen l) ++ fileNameChars l = l := by
  unfold fileNameChars
  exact List.take_append_drop _ _

/-- When a path's final component carries no suffix, `with_suffix` simply
appends the new suffix. -/
lemma pyWithSuffix_of_no_suffix (p suf : String) (h : pySuffix p = "") :
    pyWithSuffix p suf = p ++ suf := by
  unfold pySuffix at h
  unfold pyWithSuffix
  by_cases h1 : afterDotLen (fileNameChars p.toList) = (fileNameChars p.toList).length
  · simp only [if_pos h1]
    rw [take_drop_name]
    rfl
  · by_cases h2 : (fileNameChars p.toList).length -
        afterDotLen (fileNameChars p.toList) - 1 = 0
    · simp only [if_neg h1, if_pos h2]
      rw [take_drop_name]
      rfl
    · exfalso
      rw [if_neg h1, if_neg h2] at h
      have hlen0 := congrArg String.length h
      have hdrop : ((fileNameChars p.toList).drop
          ((fileNameChars p.toList).length -
            afterDotLen (fileNameChars p.toList) - 1)).length = 0 := hlen0
      rw [List.length_drop] at hdrop
      have hle := afterDotLen_le (fileNameChars p.toList)
      omega

/-- On a successful run of `merge_tif_files` the output file exists. -/
lemma output_created_of_success (mOk wOk : Bool) (fs : FS)
    (files : List String) (out : String)
    (hok : (merge_tif_files mOk wOk fs files out false).err = none) :
    out ∈ (merge_tif_files mOk wOk fs files out false).fs.files := by
  rcases hall : files.all (validTif fs) with _ | _
  · simp [merge_tif_files, hall] at hok
  · by_cases hlen : files.length = 0
    · simp [merge_tif_files, hall, hlen] at hok
    · rcases hm : mOk with _ | _
      · simp [merge_tif_files, hall, hlen, hm] at hok
      · rcases hw : wOk with _ | _
        · simp [merge_tif_files, hall, hlen, hm, hw] at hok
        · simp [merge_tif_files, hall, hlen]
          by_cases ho : out ∈ fs.files <;> simp [ho]

/-- C9 counterexample: for the input directory "tiles.old" with no output
path given, the merged output is created at "tiles.tif" — the directory's
`.old` suffix is replaced — and not at the sibling path "tiles.old.tif"
named after the directory. -/
theorem merge_directory_default_output_cex :
    (merge_tif_directory true true ⟨["tiles.old/a.tif"], ["tiles.old"]⟩
        "tiles.old" none false).err = none ∧
    ¬ ("tiles.old.tif" ∈ (merge_tif_directory true true
        ⟨["tiles.old/a.tif"], ["tiles.old"]⟩ "tiles.old" none false).fs.files) ∧
    "tiles.tif" ∈ (merge_tif_directory true true
        ⟨["tiles.old/a.tif"], ["tiles.old"]⟩ "tiles.old" none false).fs.files := by
  refine ⟨rfl, by decide, by decide⟩

/-- C9 amended: with no output path given, the default output is the input
directory path with its pathlib suffix replaced by `.tif`; when the
directory's final name component has no suffix of its own this is exactly
`<directory>.tif`, and on a successful run the merged output file is created
there. -/
theorem merge_directory_default_output (mOk wOk : Bool) (fs : FS) (d : String)
    (hsuf : pySuffix d = "")
    (hok : (merge_tif_directory mOk wOk fs d none false).err = none) :
    (d ++ ".tif") ∈ (merge_tif_directory mOk wOk fs d none false).fs.files := by
  have hout : pyWithSuffix d (".tif") = d ++ ".tif" :=
    pyWithSuffix_of_no_suffix d (".tif") hsuf
  rcases hdir : fs.isDir d with _ | _
  · exfalso
    simp [merge_tif_directory, hdir] at hok
  · simp only [merge_tif_directory, hdir, Bool.not_true, Bool.false_eq_true,
      if_false, hout] at hok ⊢
    rcases hr : (merge_tif_files mOk wOk fs (globTif fs d)
        (d ++ ".tif") false).err with _ | e
    · simp only [hr]
      exact output_created_of_success mOk wOk fs (globTif fs d) (d ++ ".tif") hr
    · simp [hr] at hok

/-- Witness for C9 (amended) on the concrete directory "tiles". -/
theorem merge_directory_default_output_witness :
    ("tiles" ++ ".tif") ∈ (merge_tif_directory true true
        ⟨["tiles/a.tif"], ["tiles"]⟩ "tiles" none false).fs.files :=
  merge_directory_default_output true true ⟨["tiles/a.tif"], ["tiles"]⟩
    "tiles" rfl rfl

/-- The modelled `rmtree` removes the directory itself and everything under it. -/
lemma rmtree_removes (fs : FS) (d p : String) :
    (underDir d p = true →
      p ∉ (rmtree fs d).files ∧ p ∉ (rmtree fs d).dirs) ∧
    d ∉ (rmtree fs d).dirs := by
  refine ⟨fun hp => ⟨fun hmem => ?_, fun hmem => ?_⟩, fun hmem => ?_⟩
  · have := (List.mem_filter.mp hmem).2
    simp [hp] at this
  · have := (List.mem_filter.mp hmem).2
    simp [hp] at this
  · have := (List.mem_filter.mp hmem).2
    simp at this

/-- C10: when `merge_tif_directory` is called with `delete_after = True` and
the merge succeeds, the input directory is removed recursively with all of
its remaining contents — any path under it, `.tif` input or not, is gone,
and so is the directory itself. -/
theorem merge_directory_delete_removes_tree (mOk wOk : Bool) (fs : FS)
    (d : String) (oo : Option String) (p : String)
    (hok : (merge_tif_directory mOk wOk fs d oo true).err = none) :
    (underDir d p = true →
      p ∉ (merge_tif_directory mOk wOk fs d oo true).fs.files ∧
      p ∉ (merge_tif_directory mOk wOk fs d oo true).fs.dirs) ∧
    d ∉ (merge_tif_directory mOk wOk fs d oo true).fs.dirs := by
  have hfs : ∃ fs2 : FS,
      (merge_tif_directory mOk wOk fs d oo true).fs = rmtree fs2 d := by
    rcases hdir : fs.isDir d with _ | _
    · exfalso
      simp [merge_tif_directory, hdir] at hok
    · rcases oo with _ | q
      · simp only [merge_tif_directory, hdir, Bool.not_true, Bool.false_eq_true,
          if_false] at hok ⊢
        rcases hr : (merge_tif_files mOk wOk fs (globTif fs d)
            (pyWithSuffix d (".tif")) true).err with _ | e
        · simp only [hr]
          exact ⟨_, rfl⟩
        · simp [hr] at hok
      · simp only [merge_tif_directory, hdir, Bool.not_true, Bool.false_eq_true,
          if_false] at hok ⊢
        rcases hr : (merge_tif_files mOk wOk fs (globTif fs d) q true).err
          with _ | e
        · simp only [hr]
          exact ⟨_, rfl⟩
        · simp [hr] at hok
  obtain ⟨fs2, hfs2⟩ := hfs
  rw [hfs2]
  exact rmtree_removes fs2 d p

/-- Witness for C10: a directory holding a non-`.tif` file as well; after a
successful delete-after merge neither that file nor the directory remains. -/
theorem merge_directory_delete_removes_tree_witness :
    ¬ ("d/notes.txt" ∈ (merge_tif_directory true true
        ⟨["d/a.tif", "d/notes.txt"], ["d"]⟩ "d" (some ("o.tif")) true).fs.files) ∧
    ¬ ("d" ∈ (merge_tif_directory true true
        ⟨["d/a.tif", "d/notes.txt"], ["d"]⟩ "d" (some ("o.tif")) true).fs.dirs) :=
  ⟨((merge_directory_delete_removes_tree true true
      ⟨["d/a.tif", "d/notes.txt"], ["d"]⟩ "d" (some ("o.tif")) "d/notes.txt"
      rfl).1 (by decide)).1,
   (merge_directory_delete_removes_tree true true
      ⟨["d/a.tif", "d/notes.txt"], ["d"]⟩ "d" (some ("o.tif")) "d/notes.txt"
      rfl).2⟩

end AlphaEarth
